import Mathlib

/-!
Verification development for the chokitto clipping-consolidation tool.

This file gives a shallow embedding of the data model and the algorithms of
src/lib/data.py (Clipping and Document) and of the text-resolution phase of
src/lib/exporters.py (PdfMergeExporter._search_page), and proves or refutes
the frozen behavioural claims about them.

Modelling conventions:
* Python "TYPE" / "TYPE+TYPE" type-tag strings are represented in their split
  form, as a list of tag strings (the tags of the fixed vocabulary contain no
  plus sign, so joining with a plus sign is injective and string equality of
  clip_type fields coincides with list equality of the split forms).
* Python datetime objects are represented as natural-number timestamps; a
  missing datetime is none.  Python datetime objects are always truthy, so a
  Python truthiness test on a datetime field is modelled as isSome.
* Page and location intervals are optional pairs of integers, as in the source.
* Operations that can raise a Python exception are modelled with Option or
  Except; a none / error result marks the input on which the source raises.
-/

mutual

/-- The content field of a Clipping is dynamically typed in the source: it
holds a plain string for a leaf clipping, a list of clippings for a merged
(composite) clipping, or - after Clipping.deduplicate collapses a composite
with a single retained child - that child Clipping object itself. -/
inductive ClipContent : Type where
  | txt (s : String)
  | clips (cs : List Clipping)
  | clip (c : Clipping)

/-- One clipping record, as in Clipping.__init__ of src/lib/data.py:
clip_type (split form of the tag string), page interval, location interval,
datetime and content. -/
inductive Clipping : Type where
  | mk (clip_type : List String) (page : Option (Int × Int))
       (location : Option (Int × Int)) (dt : Option Nat)
       (content : ClipContent)

end

/-- Field accessor for clip_type. -/
def Clipping.clip_type : Clipping → List String
  | .mk t _ _ _ _ => t

/-- Field accessor for page. -/
def Clipping.page : Clipping → Option (Int × Int)
  | .mk _ p _ _ _ => p

/-- Field accessor for location. -/
def Clipping.location : Clipping → Option (Int × Int)
  | .mk _ _ l _ _ => l

/-- Field accessor for datetime. -/
def Clipping.dt : Clipping → Option Nat
  | .mk _ _ _ d _ => d

/-- Field accessor for content. -/
def Clipping.content : Clipping → ClipContent
  | .mk _ _ _ _ c => c

/-- Clipping.get_position(prefer_location=True, as_type=int) from
src/lib/data.py lines 187-221: with prefer_location the location interval
replaces the page interval when present, otherwise the page interval is used;
when neither is present the source builds an empty tuple, whose subsequent
subscripting raises, which is modelled here as none. -/
def Clipping.getPositionIntLoc (c : Clipping) : Option (Int × Int) :=
  match c.location with
  | some l => some l
  | none => c.page

/-- Normalized position with the default used only on inputs on which the
source raises (merge_clippings guards against those inputs before this
function is ever consulted). -/
def Clipping.nposD (c : Clipping) : Int × Int :=
  (c.getPositionIntLoc).getD (0, 0)

/-- Clipping.subsumes from src/lib/data.py lines 128-132: positional
containment of the normalized intervals, and nothing else.  none models the
raise on a clipping with neither a page nor a location interval. -/
def Clipping.subsumes (self other : Clipping) : Option Bool := do
  let p ← self.getPositionIntLoc
  let q ← other.getPositionIntLoc
  pure (decide (p.1 ≤ q.1) && decide (p.2 ≥ q.2))

/-- Boolean form of subsumes used inside the guarded merge scan; the default
branch is unreachable there because every clipping has a position. -/
def Clipping.subsD (self other : Clipping) : Bool :=
  (self.subsumes other).getD false

/-- The expansion used on both sides of Clipping.merge (lines 160-162):
a list content is used as is, any other content becomes the one-element list
holding the clipping itself. -/
def Clipping.leaves (c : Clipping) : List Clipping :=
  match c.content with
  | .clips l => l
  | _ => [c]

/-- Strict lexicographic order on character lists by code point, the string
order Python sorted() uses on tag strings. -/
def strLtB : List Char → List Char → Bool
  | [], [] => false
  | [], _ :: _ => true
  | _ :: _, [] => false
  | a :: as, b :: bs => if a < b then true else if b < a then false else strLtB as bs

/-- Tag order: the (non-strict) order of Python sorted() on tag strings. -/
def tagLe (a b : String) : Prop := strLtB b.data a.data = false

instance : DecidableRel tagLe := fun _ _ => instDecidableEqBool _ _

/-- Merged clip_type (line 139): sorted deduplicated union of the two split
tag lists, modelling plus-join of sorted(set(a.split + b.split)). -/
def tagUnion (a b : List String) : List String :=
  List.insertionSort tagLe ((a ++ b).dedup)

/-- Clipping.merge from src/lib/data.py lines 134-164.  The source deep-copies
self and then overwrites fields; the fall-through match arms reproduce the
fields kept from the copy of self. -/
def Clipping.merge (self other : Clipping) : Clipping :=
  .mk (tagUnion self.clip_type other.clip_type)
    (match self.page, other.page with
     | some p, some q => some (min p.1 q.1, max p.2 q.2)
     | none, some q => some q
     | p, _ => p)
    (match self.location, other.location with
     | some p, some q => some (min p.1 q.1, max p.2 q.2)
     | none, some q => some q
     | p, _ => p)
    (match self.dt, other.dt with
     | some s, some o => some (max s o)
     | none, some o => some o
     | s, _ => s)
    (.clips (self.leaves ++ other.leaves))

/-! ### Clipping.deduplicate (src/lib/data.py lines 166-182) -/

/-- The sort key computed by the lambda on line 172: the datetime object when
present, the Python integer 0 otherwise.  The two live in different Python
types, which is what makes the comparison partial. -/
inductive PyKey : Type where
  | int (n : Nat)
  | dtv (t : Nat)
deriving DecidableEq

/-- Python greater-than on the key values: defined between two ints and
between two datetimes, a TypeError (none) between a datetime and an int. -/
def pyGT : PyKey → PyKey → Option Bool
  | .int a, .int b => some (decide (b < a))
  | .dtv a, .dtv b => some (decide (b < a))
  | _, _ => none

/-- The key of a clipping: c.datetime if c.datetime else 0. -/
def dedupKey (c : Clipping) : PyKey :=
  match c.dt with
  | some t => .dtv t
  | none => .int 0

/-- Python max(old, new, key=dedupKey): new wins only when its key compares
strictly greater; on a tie the first argument (old) is kept; none models the
TypeError raised when the keys are an int and a datetime. -/
def pyMax2 (old new : Clipping) : Option Clipping :=
  match pyGT (dedupKey new) (dedupKey old) with
  | some true => some new
  | some false => some old
  | none => none

/-- Update the (insertion-ordered) association list entry for key k with f. -/
def updAssoc (k : List String) (f : Clipping → Option Clipping) :
    List (List String × Clipping) → Option (List (List String × Clipping))
  | [] => some []
  | (k', v) :: rest =>
    if k' = k then
      match f v with
      | some v' => some ((k', v') :: rest)
      | none => none
    else
      match updAssoc k f rest with
      | some rest' => some ((k', v) :: rest')
      | none => none

/-- The dict-building loop of lines 169-174: group the children by clip_type,
keeping per group the maximum under dedupKey (insertion order of first
occurrences preserved, as for a Python dict); none models the TypeError from
a mixed datetime / missing-datetime comparison. -/
def dedupFold : List Clipping → List (List String × Clipping) →
    Option (List (List String × Clipping))
  | [], acc => some acc
  | c :: rest, acc =>
    if (acc.map Prod.fst).contains c.clip_type then
      match updAssoc c.clip_type (fun old => pyMax2 old c) acc with
      | some acc' => dedupFold rest acc'
      | none => none
    else
      dedupFold rest (acc ++ [(c.clip_type, c)])

/-- The grouping of a composite's children, lines 169-176. -/
def dedupGroups (children : List Clipping) : Option (List Clipping) :=
  (dedupFold children []).map (List.map Prod.snd)

/-- The errors Clipping.deduplicate can raise: a TypeError from the mixed key
comparison on line 172 or from subscripting a missing child interval on lines
178/180, and a ValueError from min()/max() of an empty sequence there. -/
inductive DedupErr : Type where
  | typeErr
  | valErr
deriving DecidableEq

/-- The interval recomputation of lines 177-178 and 179-180.  Note that the
source takes coordinate 0 (the start) of every child interval for the min
bound AND for the max bound.  none of a child interval is the TypeError from
None subscripting; an empty child list is the ValueError from min([]). -/
def dedupInterval (children : List Clipping) (proj : Clipping → Option (Int × Int)) :
    Except DedupErr (Int × Int) := do
  let starts ← match children.mapM (fun c => (proj c).map Prod.fst) with
    | some l => Except.ok l
    | none => Except.error DedupErr.typeErr
  match starts with
  | [] => Except.error DedupErr.valErr
  | s :: rest => Except.ok (rest.foldl min s, rest.foldl max s)

/-- Clipping.deduplicate from src/lib/data.py lines 166-182.  A non-composite
clipping is returned untouched (the early return of line 167); for a
composite, the children are grouped per clip_type keeping the key-maximal
child, the page/location intervals are recomputed over the retained children
when present on the composite, and a single remaining child is stored as the
content itself (line 182). -/
def Clipping.deduplicate (self : Clipping) : Except DedupErr Clipping :=
  match self.content with
  | .clips children =>
    match dedupGroups children with
    | none => Except.error DedupErr.typeErr
    | some retained =>
      (do
        let page' ← match self.page with
          | some _ => (dedupInterval retained Clipping.page).map some
          | none => Except.ok none
        let location' ← match self.location with
          | some _ => (dedupInterval retained Clipping.location).map some
          | none => Except.ok none
        let content' := match retained with
          | [c] => ClipContent.clip c
          | l => ClipContent.clips l
        Except.ok (Clipping.mk self.clip_type page' location' self.dt content'))
  | _ => Except.ok self

/-! ### Document.merge_clippings (src/lib/data.py lines 45-88)

A Document's clipping collection is modelled as the insertion-ordered list
self.clippings; the type index _type_idx_map is a derived cache rebuilt from
that list (add_clipping and the rebuild loop of lines 77-88 keep it exactly
canonical), so it is represented by the function typeIdxMap below rather than
as separate state. -/

/-- The canonical type index built by add_clipping / the rebuild loop:
for each clip_type in order of first occurrence, the list of indices of the
clippings carrying it. -/
def typeIdxMap (cs : List Clipping) : List (List String × List Nat) :=
  (cs.enum.map (fun p => (p.2.clip_type, p.1))).foldl
    (fun acc p =>
      if (acc.map Prod.fst).contains p.1 then
        acc.map (fun q => if q.1 = p.1 then (q.1, q.2 ++ [p.2]) else q)
      else acc ++ [(p.1, [p.2])]) []

/-- del_idcs insertion: set semantics on a duplicate-free list. -/
def addNew (l : List Nat) (i : Nat) : List Nat :=
  if i ∈ l then l else l ++ [i]

/-- The lookahead loop of lines 57-71 for the accumulator started at snapshot
index clipIdx: rest is the snapshot suffix after the accumulator, j the
snapshot index of its head, accEnd the accumulator's current normalized end.
Returns the final accumulator and the updated del_idcs. -/
def lookahead (clipIdx : Nat) : List Clipping → Nat → Clipping → Int →
    List Nat → (Clipping × List Nat)
  | [], _, acc, _, dels => (acc, dels)
  | next :: rest, j, acc, accEnd, dels =>
    if accEnd < (next.nposD).1 then (acc, dels)
    else if acc.subsD next || next.subsD acc then
      let acc' := acc.merge next
      lookahead clipIdx rest (j + 1) acc' (acc'.nposD).2 (addNew (addNew dels clipIdx) j)
    else lookahead clipIdx rest (j + 1) acc accEnd dels

/-- The outer scan of lines 49-74 over the sorted snapshot: s is the
remaining snapshot suffix, i the snapshot index of its head; dels accumulates
del_idcs and app the composites appended by line 74 (appended exactly when
the current index entered del_idcs, i.e. when at least one merge happened). -/
def scanGo : List Clipping → Nat → List Nat → List Clipping →
    (List Nat × List Clipping)
  | [], _, dels, app => (dels, app)
  | c :: rest, i, dels, app =>
    if i ∈ dels then scanGo rest (i + 1) dels app
    else
      scanGo rest (i + 1) (lookahead i rest (i + 1) c (c.nposD).2 dels).2
        (if i ∈ (lookahead i rest (i + 1) c (c.nposD).2 dels).2 then
          app ++ [(lookahead i rest (i + 1) c (c.nposD).2 dels).1]
        else app)

/-- The rebuild loop of lines 77-88: keep the clippings of the full list
(original insertion order plus the appended composites) whose POSITION IN
THAT LIST is not in del_idcs; s is the index of the head. -/
def rebuild : List Clipping → Nat → List Nat → List Clipping
  | [], _, _ => []
  | c :: rest, s, dels =>
    if s ∈ dels then rebuild rest (s + 1) dels
    else c :: rebuild rest (s + 1) dels

/-- Comparison used by sorted(self.get_clippings()) via Clipping.__lt__:
the normalized start positions.  Python's sort is stable, and a stable sort
under this total preorder is exactly insertion sort under this le. -/
def posLe (a b : Clipping) : Prop := (a.nposD).1 ≤ (b.nposD).1

instance : DecidableRel posLe := fun _ _ => Int.decLe _ _

/-- Whether every clipping of the document carries a position; when it does
not, merge_clippings raises (the tuple unpacking on lines 53/59 or the sort
comparison fails on the empty position tuple). -/
abbrev AllPos (cs : List Clipping) : Prop :=
  (cs.all fun c => (c.getPositionIntLoc).isSome) = true

/-- Document.merge_clippings from src/lib/data.py lines 45-88, acting on the
insertion-ordered clipping list.  The scan runs over the snapshot sorted by
normalized start (stable), del_idcs collects SNAPSHOT indices, the appended
composites go to the end of the stored list, and the rebuild then drops the
STORED-LIST positions listed in del_idcs - the source applies snapshot
indices to the insertion-ordered list.  none models the raise on a clipping
without any position. -/
def merge_clippings (cs : List Clipping) : Option (List Clipping) :=
  if (cs.all fun c => (c.getPositionIntLoc).isSome) then
    let snap := List.insertionSort posLe cs
    let r := scanGo snap 0 [] []
    some (rebuild (cs ++ r.2) 0 r.1)
  else none

/-- Iterated application of merge_clippings. -/
def iterMerge : Nat → List Clipping → Option (List Clipping)
  | 0, cs => some cs
  | n + 1, cs => (merge_clippings cs).bind (iterMerge n)

/-! ### PdfMergeExporter text resolution (src/lib/exporters.py lines 174-261)

The page object of the source is external (a rendered PDF page); its raw
extracted text is taken as an input string and its native region search as an
abstract function parameter.  Everything else of _get_page_text and
_search_page is translated below.  Texts are lists of characters. -/

/-- Errors _search_page can raise: reading the loop variable matches before
any assignment (NameError, possible when the cleaned clipping text is empty)
and subscripting raw_idx_map out of range (IndexError) while translating the
matched span to raw-text offsets. -/
inductive PErr : Type where
  | nameError
  | indexError
deriving DecidableEq

/-- _get_page_text, lines 174-199: walking the raw text, a hyphen directly
followed by a newline is dropped together with the newline; any other hyphen
is also dropped (neither branch of the source appends it); a newline becomes
a space; every appended cleaned character records its raw index in
raw_idx_map.  i is the raw index of the head. -/
def getPageTextGo : List Char → Nat → (List Char × List Nat)
  | [], _ => ([], [])
  | '-' :: '\n' :: rest, i => getPageTextGo rest (i + 2)
  | '-' :: rest, i => getPageTextGo rest (i + 1)
  | '\n' :: rest, i =>
    let r := getPageTextGo rest (i + 1)
    (' ' :: r.1, i :: r.2)
  | c :: rest, i =>
    let r := getPageTextGo rest (i + 1)
    (c :: r.1, i :: r.2)

/-- Cleaned page text and raw index map of a raw page text. -/
def getPageText (raw : List Char) : List Char × List Nat :=
  getPageTextGo raw 0

/-- re.finditer of the escaped literal q over s, returning the start offsets
of the non-overlapping occurrences found left to right (after a match the
scan resumes behind it; an empty pattern matches at every offset).  pos is
the offset of the head of s; the fuel argument is one more than the length of
the scanned text, which the recursion never exhausts. -/
def findIterGo (q : List Char) : Nat → List Char → Nat → List Nat
  | 0, _, _ => []
  | _ + 1, [], pos => if q.isEmpty then [pos] else []
  | fuel + 1, c :: t, pos =>
    if q.isPrefixOf (c :: t) then
      pos :: findIterGo q fuel ((c :: t).drop (max q.length 1)) (pos + max q.length 1)
    else
      findIterGo q fuel t (pos + 1)

/-- All match offsets of the literal q in s. -/
def findIter (q s : List Char) : List Nat :=
  findIterGo q (s.length + 1) s 0

/-- Python list subscription with wrap-around for negative indices and an
out-of-range error (none). -/
def pyGet {α : Type} (l : List α) (i : Int) : Option α :=
  if 0 ≤ i then l.get? i.toNat
  else if (-i).toNat ≤ l.length then l.get? (l.length - (-i).toNat)
  else none

/-- Result of the sliding-window loop of lines 214-230 for one query length:
either the loop broke at the first window with exactly one occurrence (found,
with the window offset in the clipping text and the page-text offset of the
occurrence), or it ran out of window positions, carrying the final ambiguity
flag and the last value of the matches variable (none when the loop body
never ran and the variable kept its state from before the loop). -/
inductive Inner1Result : Type where
  | found (startIdx : Nat) (m0 : Nat)
  | exhausted (amb : Bool) (mlast : Option (List Nat))
deriving DecidableEq

/-- The sliding-window loop body, lines 214-230: s is the window offset
(start_idx), amb the ambiguous_match flag, mv the current matches variable.
The fuel is one more than the clipping length, never exhausted since the
offset grows to at most the clipping length. -/
def inner1Go (clip page : List Char) (queryLen : Nat) :
    Nat → Nat → Bool → Option (List Nat) → Inner1Result
  | 0, _, amb, mv => .exhausted amb mv
  | fuel + 1, s, amb, mv =>
    if s + queryLen ≤ clip.length then
      if (findIter ((clip.drop s).take queryLen) page).length = 1 then
        .found s ((findIter ((clip.drop s).take queryLen) page).headD 0)
      else if (findIter ((clip.drop s).take queryLen) page).length = 0 then
        inner1Go clip page queryLen fuel (s + 1) amb
          (some (findIter ((clip.drop s).take queryLen) page))
      else
        inner1Go clip page queryLen fuel (s + 1) true
          (some (findIter ((clip.drop s).take queryLen) page))
    else .exhausted amb mv

/-- One full run of the sliding-window loop at a given query length. -/
def inner1 (clip page : List Char) (queryLen : Nat) (mv : Option (List Nat)) :
    Inner1Result :=
  inner1Go clip page queryLen (clip.length + 1) 0 false mv

/-- The code after the outer loop, lines 242-244 evaluated together with the
fall-through to the second phase: reading matches before any assignment is
the NameError; an empty match list returns the empty result (modelled none);
otherwise the current page query goes on to the native search. -/
def phase1Term (mv : Option (List Nat)) (pq : List Char) :
    Except PErr (Option (List Char)) :=
  match mv with
  | none => Except.error PErr.nameError
  | some m => if m.isEmpty then Except.ok none else Except.ok (some pq)

/-- The shrinking-window outer loop of lines 211-240: queryLen is the current
query_len, mv the matches variable, pq the page_query variable (initially the
cleaned clipping text).  On a single unambiguous match the raw span is
computed through raw_idx_map (possibly raising IndexError) and becomes the
new page query; with ambiguity and no single match the function returns empty
(ok none) at once; otherwise the window shrinks by one. -/
def phase1Go (clip page raw : List Char) (rawMap : List Nat) (minLen : Nat) :
    Nat → Option (List Nat) → List Char → Except PErr (Option (List Char))
  | 0, mv, pq => phase1Term mv pq
  | ql + 1, mv, pq =>
    if ql + 1 ≤ minLen then phase1Term mv pq
    else
      match inner1 clip page (ql + 1) mv with
      | .found s m0 =>
        let tS : Int := (m0 : Int) - (s : Int)
        let tE : Int := tS + (clip.length : Int)
        match pyGet rawMap tS, pyGet rawMap tE with
        | some a, some b => Except.ok (some ((raw.drop a).take (b - a)))
        | _, _ => Except.error PErr.indexError
      | .exhausted amb mlast =>
        match mlast with
        | some m =>
          if m.length = 1 then Except.ok (some pq)
          else if amb then Except.ok none
          else phase1Go clip page raw rawMap minLen ql (some m) pq
        | none =>
          if amb then Except.ok none
          else phase1Go clip page raw rawMap minLen ql none pq

/-- The inner loop of the second phase, lines 249-256: first window offset at
which the native search returns a non-empty result set. -/
def inner2Go {R : Type} (searchFor : List Char → List R) (pq : List Char)
    (queryLen : Nat) : Nat → Nat → Option (List R)
  | 0, _ => none
  | fuel + 1, s =>
    if s + queryLen ≤ pq.length then
      let results := searchFor ((pq.drop s).take queryLen)
      if results.isEmpty then inner2Go searchFor pq queryLen fuel (s + 1)
      else some results
    else none

/-- The shrinking-window native search of lines 246-259; an exhausted search
returns the empty result list the results variable last held. -/
def phase2Go {R : Type} (searchFor : List Char → List R) (pq : List Char)
    (minLen : Nat) : Nat → List R
  | 0 => []
  | ql + 1 =>
    if ql + 1 ≤ minLen then []
    else
      match inner2Go searchFor pq (ql + 1) (pq.length + 1) 0 with
      | some results => results
      | none => phase2Go searchFor pq minLen ql

/-- PdfMergeExporter._search_page from src/lib/exporters.py lines 201-261,
with the native page search abstracted as searchFor and the raw extracted
page text as input.  The clipping content string is cleaned of hyphens, the
first phase resolves the best raw-text query, the second phase runs the
native search with shrinking windows of that query. -/
def searchPage {R : Type} (searchFor : List Char → List R) (rawText : String)
    (clipContent : String) (minQueryLen : Nat) : Except PErr (List R) :=
  match phase1Go (clipContent.data.filter (fun c => c ≠ '-'))
      (getPageText rawText.data).1 rawText.data (getPageText rawText.data).2
      minQueryLen (clipContent.data.filter (fun c => c ≠ '-')).length none
      (clipContent.data.filter (fun c => c ≠ '-')) with
  | Except.error e => Except.error e
  | Except.ok none => Except.ok []
  | Except.ok (some pq) => Except.ok (phase2Go searchFor pq minQueryLen pq.length)

/-! ### Definitions taken from the specification text

These are NOT translations of the source: they formalise the words of the
specification, for comparison against the translated code. -/

/-- Modelled from the spec: "Page interval = union of the two intervals if
both present, else whichever is present", the union being coordinate-wise
min of starts and max of ends. -/
def specIntervalUnion : Option (Int × Int) → Option (Int × Int) → Option (Int × Int)
  | some p, some q => some (min p.1 q.1, max p.2 q.2)
  | some p, none => some p
  | none, some q => some q
  | none, none => none

/-- Modelled from the spec: "Timestamp = the later of the two if both
present, else whichever is present". -/
def specLaterTime : Option Nat → Option Nat → Option Nat
  | some a, some b => some (max a b)
  | some a, none => some a
  | none, some b => some b
  | none, none => none

/-- Modelled from the spec: the tag set of a merge is the sorted,
deduplicated union of the two tag sets. -/
def specTagUnion (a b : List String) : List String :=
  List.insertionSort tagLe ((a ++ b).dedup)

/-- Modelled from the spec: the literal texts of the leaves of a clipping's
content (the clipping itself if it is a leaf). -/
def specLeafTexts (c : Clipping) : List String :=
  c.leaves.map fun l =>
    match l.content with
    | .txt s => s
    | _ => ""

/-- Modelled from the spec: "every leaf of B's content must be matched by
content-equality or containment against some leaf of A's content". -/
def specContentSubsumes (a b : Clipping) : Bool :=
  (specLeafTexts b).all fun t =>
    (specLeafTexts a).any fun s => t == s || !(findIter t.data s.data).isEmpty

/-- Modelled from the spec: A and B share at least one type tag. -/
def specSharesTag (a b : Clipping) : Bool :=
  a.clip_type.any fun t => b.clip_type.contains t

/-! ### Setter helpers used to state invariance theorems -/

/-- Replace only the type tags of a clipping. -/
def Clipping.setTags (c : Clipping) (t : List String) : Clipping :=
  .mk t c.page c.location c.dt c.content

/-- Replace only the content of a clipping. -/
def Clipping.setContent (c : Clipping) (x : ClipContent) : Clipping :=
  .mk c.clip_type c.page c.location c.dt x

/-! ### Concrete clippings used in counterexamples and evaluations -/

/-- A bookmark at location 50-50. -/
def bmClip : Clipping := .mk ["bookmark"] none (some (50, 50)) (some 1) (.txt "x")

/-- A highlight at location 48-60. -/
def hlClip : Clipping := .mk ["highlight"] none (some (48, 60)) (some 2) (.txt "y")

/-- A highlight at location 0-10 with text abc. -/
def ctA : Clipping := .mk ["highlight"] none (some (0, 10)) (some 1) (.txt "abc")

/-- A highlight at location 2-3 with text zzz, unrelated to abc. -/
def ctB : Clipping := .mk ["highlight"] none (some (2, 3)) (some 2) (.txt "zzz")

/-- Leaf child: highlight, page interval 1-5. -/
def ddHl : Clipping := .mk ["highlight"] (some (1, 5)) none (some 1) (.txt "a")

/-- Leaf child: note, page interval 2-3. -/
def ddNote : Clipping := .mk ["note"] (some (2, 3)) none (some 2) (.txt "b")

/-- Composite of ddHl and ddNote with page interval 1-5. -/
def ddComp : Clipping :=
  .mk ["highlight", "note"] (some (1, 5)) none (some 2) (.clips [ddHl, ddNote])

/-- Leaf child without a timestamp. -/
def mxA : Clipping := .mk ["highlight"] none (some (1, 4)) none (.txt "a")

/-- Leaf child with timestamp 5, same tag as mxA. -/
def mxB : Clipping := .mk ["highlight"] none (some (2, 3)) (some 5) (.txt "b")

/-- Composite whose two same-tagged children mix a missing and a present
timestamp. -/
def mxComp : Clipping :=
  .mk ["highlight"] none (some (1, 4)) (some 5) (.clips [mxA, mxB])

/-- Leaf child: highlight, timestamp 1. -/
def clA : Clipping := .mk ["highlight"] none (some (1, 4)) (some 1) (.txt "a")

/-- Leaf child: highlight, timestamp 2. -/
def clB : Clipping := .mk ["highlight"] none (some (2, 3)) (some 2) (.txt "b")

/-- Composite tagged highlight+note whose children both carry only the
highlight tag, so deduplication retains exactly one child. -/
def clComp : Clipping :=
  .mk ["highlight", "note"] none (some (1, 4)) (some 2) (.clips [clA, clB])

/-- Third clipping inserted first: location 100-200. -/
def mcC : Clipping := .mk ["highlight"] none (some (100, 200)) (some 1) (.txt "c")

/-- Second clipping inserted: location 1-20. -/
def mcB : Clipping := .mk ["highlight"] none (some (1, 20)) (some 2) (.txt "b")

/-- First clipping in sorted order but inserted last: location 5-10,
positionally contained in mcB. -/
def mcA : Clipping := .mk ["highlight"] none (some (5, 10)) (some 3) (.txt "a")

/-! ### Claim C1 -/

/-- Claim C1 is false on the code: Clipping.subsumes never inspects type
tags, so the non-bookmark highlight at location 48-60 subsumes the bookmark
at location 50-50 (the claim, and spec example 2, say both directions are
false), and merge_clippings does merge the two into one composite. -/
theorem subsumes_bookmark_counterexample :
    hlClip.subsumes bmClip = some true ∧
    merge_clippings [bmClip, hlClip] =
      some [Clipping.mk ["bookmark", "highlight"] none (some (48, 60)) (some 2)
        (.clips [hlClip, bmClip])] :=
  ⟨rfl, by rfl⟩

/-- Claim C1 (amended): Clipping.subsumes depends only on the normalized
positions of the two clippings and ignores their type tags entirely; in
particular a bookmark subsumes or is subsumed by a non-bookmark exactly as
positional containment dictates, and merge_clippings merges them. -/
theorem subsumes_ignores_tags (a b : Clipping) (ta tb : List String) :
    (a.setTags ta).subsumes (b.setTags tb) = a.subsumes b := by
  cases a
  cases b
  rfl

/-! ### Claim C2 -/

/-- Claim C2 is false on the code: ctA and ctB share the highlight tag, the
leaf text of ctB is matched by neither content-equality nor containment
against the leaf text of ctA, and yet Subsumes(ctA, ctB) holds - positional
containment alone is sufficient in the source even when a tag is shared. -/
theorem subsumes_content_counterexample :
    specSharesTag ctA ctB = true ∧ specContentSubsumes ctA ctB = false ∧
    ctA.subsumes ctB = some true :=
  ⟨rfl, rfl, rfl⟩

/-- Claim C2 (amended): Clipping.subsumes depends only on the normalized
positions and never examines content; positional containment alone decides
subsumption whether or not the two clippings share a type tag. -/
theorem subsumes_ignores_content (a b : Clipping) (ca cb : ClipContent) :
    (a.setContent ca).subsumes (b.setContent cb) = a.subsumes b := by
  cases a
  cases b
  rfl

/-! ### Claim C3 -/

/-- Claim C3: Clipping.merge returns a composite whose tag list is the sorted
deduplicated union of the two tag lists, whose page and location intervals
follow the union-if-both-present / whichever-is-present rule, whose timestamp
is the later of the two when both are present and otherwise whichever is
present, and whose content is the concatenation of the leaves of self then
the leaves of other, each side expanded to a one-element list if it is not a
composite. -/
theorem merge_matches_spec (a b : Clipping) :
    a.merge b = Clipping.mk (specTagUnion a.clip_type b.clip_type)
      (specIntervalUnion a.page b.page) (specIntervalUnion a.location b.location)
      (specLaterTime a.dt b.dt) (.clips (a.leaves ++ b.leaves)) := by
  cases a with
  | mk ta pa la da ca =>
    cases b with
    | mk tb pb lb db cb =>
      cases pa <;> cases pb <;> cases la <;> cases lb <;> cases da <;> cases db <;> rfl

/-! ### Claim C4 -/

/-- Claim C4 fails on the code (code bug): deduplicating ddComp retains both
children (distinct tags), whose page intervals are 1-5 and 2-3; the interval
union across the retained children is 1-5, but lines 177-178 of
src/lib/data.py take the START coordinate of every child both for the min
and for the max bound, producing 1-2. -/
theorem deduplicate_interval_uses_starts :
    ddComp.deduplicate = Except.ok (Clipping.mk ["highlight", "note"]
      (some (1, 2)) none (some 2) (.clips [ddHl, ddNote])) ∧
    specIntervalUnion ddHl.page ddNote.page = some (1, 5) ∧
    (some ((1 : Int), (2 : Int)) : Option (Int × Int)) ≠ some (1, 5) :=
  ⟨rfl, rfl, by decide⟩

/-! ### Claim C5 -/

/-- Claim C5 fails on the code (code bug): grouping the children of mxComp
puts mxA (no timestamp) and mxB (timestamp 5) into the same highlight group,
and the key function of line 172 then compares a datetime against the int 0,
which raises a TypeError instead of ranking the missing timestamp lowest. -/
theorem deduplicate_mixed_datetime_type_error :
    mxComp.deduplicate = Except.error DedupErr.typeErr :=
  rfl

/-! ### Claim C6 -/

/-- Claim C6 is false on the code: after deduplicating clComp exactly one
child (clB) remains, and line 182 stores that child Clipping object itself as
the content - the composite keeps its own merged tag list highlight+note
rather than the child's tags, and its content is the child record, not the
child's literal text. -/
theorem deduplicate_collapse_counterexample :
    clComp.deduplicate = Except.ok (Clipping.mk ["highlight", "note"] none
      (some (2, 2)) (some 2) (.clip clB)) ∧
    (["highlight", "note"] : List String) ≠ clB.clip_type ∧
    ClipContent.clip clB ≠ ClipContent.txt "b" :=
  ⟨rfl, by decide, fun h => ClipContent.noConfusion h⟩

/-- Claim C6 (amended): when deduplication of a composite retains exactly one
child, the composite's content becomes that child clipping object itself (so
the composite stops being a merged clipping), while the composite keeps its
own type tags and timestamp; the child's text is not lifted out and the
child's tags are not adopted.  Stated for composites without page and
location intervals, whose recomputation is claim C4's concern. -/
theorem deduplicate_collapse_amended (t : List String) (d : Option Nat)
    (children : List Clipping) (c : Clipping)
    (hg : dedupGroups children = some [c]) :
    (Clipping.mk t none none d (.clips children)).deduplicate =
      Except.ok (Clipping.mk t none none d (.clip c)) := by
  simp only [Clipping.deduplicate, Clipping.content, Clipping.page,
    Clipping.location, Clipping.clip_type, Clipping.dt, hg]
  rfl

/-- Witness for the amended claim C6 at the concrete composite clComp
(children clA and clB share the highlight tag, clB has the later timestamp,
so exactly clB is retained). -/
theorem deduplicate_collapse_amended_witness :
    (Clipping.mk ["highlight", "note"] none none (some 2)
      (.clips [clA, clB])).deduplicate =
      Except.ok (Clipping.mk ["highlight", "note"] none none (some 2)
        (.clip clB)) :=
  deduplicate_collapse_amended ["highlight", "note"] (some 2) [clA, clB] clB rfl

/-! ### Claim C7 -/

/-- Claim C7 fails on the code (code bug): with insertion order
[mcC, mcB, mcA] the sorted snapshot is [mcB, mcA, mcC]; the scan merges mcB
and mcA (snapshot indices 0 and 1) into one composite, so the consumed
clippings are mcB and mcA and the unconsumed mcC must be kept.  The rebuild
of lines 77-88, however, applies the snapshot indices 0 and 1 to the
insertion-ordered list, dropping mcC and mcB: the consumed clipping mcA stays
in the document and the unconsumed clipping mcC is lost. -/
theorem merge_clippings_drops_wrong_indices :
    merge_clippings [mcC, mcB, mcA] =
      some [mcA, Clipping.mk ["highlight"] none (some (1, 20)) (some 3)
        (.clips [mcB, mcA])] :=
  rfl

/-! ### Helper lemmas for the merge scan (claim C8)

The stabilization argument counts clippings: a pass that performs no merge
rebuilds the document unchanged, and a pass that performs at least one merge
consumes strictly more snapshot indices than it appends composites, so the
clipping count strictly decreases.  The key combinatorial fact is that every
appended composite contributes its own starting index to del_idcs, these
starting indices are distinct, and at least one consumed lookahead index is
never a starting index. -/

/-- Positional wellformedness of one clipping. -/
def ClipPos (c : Clipping) : Prop := (c.getPositionIntLoc).isSome = true

theorem addNew_mem_self (l : List Nat) (i : Nat) : i ∈ addNew l i := by
  unfold addNew
  split
  · assumption
  · simp

theorem mem_addNew_of_mem {l : List Nat} {j : Nat} (h : j ∈ l) (i : Nat) :
    j ∈ addNew l i := by
  unfold addNew
  split
  · exact h
  · simp [h]

theorem mem_addNew_iff {l : List Nat} {i j : Nat} :
    j ∈ addNew l i ↔ j ∈ l ∨ j = i := by
  unfold addNew
  split
  · rename_i hi
    exact ⟨Or.inl, fun h => h.elim id (fun e => e ▸ hi)⟩
  · simp [List.mem_append]

theorem addNew_nodup {l : List Nat} (h : l.Nodup) (i : Nat) :
    (addNew l i).Nodup := by
  unfold addNew
  split
  · exact h
  · rename_i hi
    simp [List.nodup_append, h, hi]

theorem length_addNew_le (l : List Nat) (i : Nat) :
    l.length ≤ (addNew l i).length := by
  unfold addNew
  split
  · exact le_rfl
  · simp

theorem length_addNew_of_not_mem {l : List Nat} {i : Nat} (h : i ∉ l) :
    (addNew l i).length = l.length + 1 := by
  unfold addNew
  simp [h]

theorem two_le_length_of_two_mem {l : List Nat} {a b : Nat} (ha : a ∈ l)
    (hb : b ∈ l) (hab : a ≠ b) : 2 ≤ l.length := by
  cases l with
  | nil => simp at ha
  | cons x t =>
    cases t with
    | nil =>
      simp at ha hb
      exact absurd (ha.trans hb.symm) hab
    | cons y u => simp

/-- Monotonicity and bounds of the del_idcs set across one lookahead: it only
grows, stays duplicate-free, and every new member is the starting index or a
lookahead index of the scanned suffix. -/
theorem lookahead_dels (i : Nat) (rest : List Clipping) (j : Nat)
    (acc : Clipping) (accEnd : Int) (dels : List Nat) :
    (∀ x ∈ dels, x ∈ (lookahead i rest j acc accEnd dels).2) ∧
    dels.length ≤ (lookahead i rest j acc accEnd dels).2.length ∧
    (dels.Nodup → (lookahead i rest j acc accEnd dels).2.Nodup) ∧
    (∀ x ∈ (lookahead i rest j acc accEnd dels).2,
      x ∈ dels ∨ x = i ∨ (j ≤ x ∧ x < j + rest.length)) := by
  induction rest generalizing j acc accEnd dels with
  | nil =>
    exact ⟨fun x hx => hx, le_rfl, id, fun x hx => Or.inl hx⟩
  | cons next rest ih =>
    unfold lookahead
    split
    · exact ⟨fun x hx => hx, le_rfl, id, fun x hx => Or.inl hx⟩
    · split
      · have hstep := ih (j + 1) (acc.merge next) ((acc.merge next).nposD).2
          (addNew (addNew dels i) j)
        refine ⟨?_, ?_, ?_, ?_⟩
        · intro x hx
          exact hstep.1 x (mem_addNew_of_mem (mem_addNew_of_mem hx i) j)
        · calc dels.length ≤ (addNew dels i).length := length_addNew_le _ _
            _ ≤ (addNew (addNew dels i) j).length := length_addNew_le _ _
            _ ≤ _ := hstep.2.1
        · intro hnd
          exact hstep.2.2.1 (addNew_nodup (addNew_nodup hnd i) j)
        · intro x hx
          rcases hstep.2.2.2 x hx with hx1 | hx1 | hx1
          · rcases mem_addNew_iff.1 hx1 with hx2 | rfl
            · rcases mem_addNew_iff.1 hx2 with hx3 | rfl
              · exact Or.inl hx3
              · exact Or.inr (Or.inl rfl)
            · right; right; constructor
              · omega
              · simp only [List.length_cons]
                omega
          · exact Or.inr (Or.inl hx1)
          · right; right; constructor
            · omega
            · simp only [List.length_cons]
              omega
      · have hstep := ih (j + 1) acc accEnd dels
        refine ⟨hstep.1, hstep.2.1, hstep.2.2.1, ?_⟩
        intro x hx
        rcases hstep.2.2.2 x hx with hx1 | hx1 | hx1
        · exact Or.inl hx1
        · exact Or.inr (Or.inl hx1)
        · right; right; constructor
          · omega
          · simp only [List.length_cons]
            omega

/-- Either a lookahead performs no merge and leaves del_idcs untouched, or it
puts its own starting index (fresh) plus at least one distinct lookahead
index into del_idcs, growing it by at least one. -/
theorem lookahead_merge_cases (i : Nat) (rest : List Clipping) (j : Nat)
    (acc : Clipping) (accEnd : Int) (dels : List Nat)
    (hij : i < j) (hi : i ∉ dels) :
    (lookahead i rest j acc accEnd dels).2 = dels ∨
    (i ∈ (lookahead i rest j acc accEnd dels).2 ∧
     dels.length + 1 ≤ (lookahead i rest j acc accEnd dels).2.length ∧
     ∃ jj, jj ∈ (lookahead i rest j acc accEnd dels).2 ∧ i ≠ jj) := by
  induction rest generalizing j acc accEnd dels with
  | nil =>
    exact Or.inl rfl
  | cons next rest ih =>
    unfold lookahead
    split
    · exact Or.inl rfl
    · split
      · right
        have hstep := lookahead_dels i rest (j + 1) (acc.merge next)
          ((acc.merge next).nposD).2 (addNew (addNew dels i) j)
        refine ⟨?_, ?_, j, ?_, by omega⟩
        · exact hstep.1 i (mem_addNew_of_mem (addNew_mem_self dels i) j)
        · calc dels.length + 1 = (addNew dels i).length :=
              (length_addNew_of_not_mem hi).symm
            _ ≤ (addNew (addNew dels i) j).length := length_addNew_le _ _
            _ ≤ _ := hstep.2.1
        · exact hstep.1 j (addNew_mem_self _ j)
      · exact ih (j + 1) acc accEnd dels (by omega) hi

/-- The scan invariant: del_idcs stays duplicate-free, all its members are
snapshot indices, and it is either still empty with no composite appended or
strictly larger than the number of appended composites. -/
theorem scanGo_inv (s : List Clipping) (i : Nat) (dels : List Nat)
    (app : List Clipping) (hnd : dels.Nodup)
    (hbd : ∀ x ∈ dels, x < i + s.length)
    (hinv : (dels = [] ∧ app = []) ∨ app.length + 1 ≤ dels.length) :
    (scanGo s i dels app).1.Nodup ∧
    (∀ x ∈ (scanGo s i dels app).1, x < i + s.length) ∧
    ((scanGo s i dels app).1 = [] ∧ (scanGo s i dels app).2 = [] ∨
      (scanGo s i dels app).2.length + 1 ≤ (scanGo s i dels app).1.length) := by
  induction s generalizing i dels app with
  | nil =>
    simpa [scanGo] using ⟨hnd, hbd, hinv⟩
  | cons c rest ih =>
    unfold scanGo
    split
    · have hbd1 : ∀ x ∈ dels, x < (i + 1) + rest.length := by
        intro x hx
        have := hbd x hx
        simp at this
        omega
      have hres := ih (i + 1) dels app hnd hbd1 hinv
      refine ⟨hres.1, ?_, hres.2.2⟩
      intro x hx
      have := hres.2.1 x hx
      simp
      omega
    · rename_i hi
      have hmono := lookahead_dels i rest (i + 1) c (c.nposD).2 dels
      have hcase := lookahead_merge_cases i rest (i + 1) c (c.nposD).2 dels
        (by omega) hi
      have hnd2 : (lookahead i rest (i + 1) c (c.nposD).2 dels).2.Nodup :=
        hmono.2.2.1 hnd
      have hbd2 : ∀ x ∈ (lookahead i rest (i + 1) c (c.nposD).2 dels).2,
          x < (i + 1) + rest.length := by
        intro x hx
        rcases hmono.2.2.2 x hx with hx1 | rfl | hx1
        · have := hbd x hx1
          simp at this
          omega
        · omega
        · omega
      have hinv2 : ((lookahead i rest (i + 1) c (c.nposD).2 dels).2 = [] ∧
          (if i ∈ (lookahead i rest (i + 1) c (c.nposD).2 dels).2 then
            app ++ [(lookahead i rest (i + 1) c (c.nposD).2 dels).1]
          else app) = []) ∨
          (if i ∈ (lookahead i rest (i + 1) c (c.nposD).2 dels).2 then
            app ++ [(lookahead i rest (i + 1) c (c.nposD).2 dels).1]
          else app).length + 1 ≤
            (lookahead i rest (i + 1) c (c.nposD).2 dels).2.length := by
        rcases hcase with hsame | ⟨hmem, hlen, jj, hjj, hij⟩
        · rw [hsame, if_neg hi]
          rcases hinv with ⟨hd0, ha0⟩ | hlt
          · exact Or.inl ⟨hd0, ha0⟩
          · exact Or.inr hlt
        · rw [if_pos hmem]
          right
          rcases hinv with ⟨hd0, ha0⟩ | hlt
          · subst ha0
            subst hd0
            simpa using two_le_length_of_two_mem hmem hjj hij
          · simp
            omega
      have hres := ih (i + 1) _ _ hnd2 hbd2 hinv2
      refine ⟨hres.1, ?_, hres.2.2⟩
      intro x hx
      have := hres.2.1 x hx
      simp
      omega

theorem rebuild_length (l : List Clipping) (s : Nat) (dels : List Nat) :
    (rebuild l s dels).length +
      (List.range' s l.length).countP (fun x => decide (x ∈ dels)) = l.length := by
  induction l generalizing s with
  | nil => simp [rebuild]
  | cons c rest ih =>
    have hr : List.range' s (rest.length + 1) = s :: List.range' (s + 1) rest.length :=
      rfl
    have hih := ih (s + 1)
    unfold rebuild
    by_cases hs : s ∈ dels
    · rw [if_pos hs]
      simp only [List.length_cons, hr, List.countP_cons, decide_eq_true hs, if_true]
      omega
    · rw [if_neg hs]
      have hd : (decide (s ∈ dels)) = false := decide_eq_false hs
      simp only [List.length_cons, hr, List.countP_cons, hd]
      simp only [Bool.false_eq_true, if_false]
      omega

theorem rebuild_nil_dels (l : List Clipping) (s : Nat) : rebuild l s [] = l := by
  induction l generalizing s with
  | nil => rfl
  | cons c rest ih => simp [rebuild, ih]

theorem mem_rebuild (l : List Clipping) (s : Nat) (dels : List Nat) :
    ∀ c ∈ rebuild l s dels, c ∈ l := by
  induction l generalizing s with
  | nil => simp [rebuild]
  | cons c rest ih =>
    unfold rebuild
    split
    · intro x hx
      exact List.mem_cons_of_mem c (ih (s + 1) x hx)
    · intro x hx
      rcases List.mem_cons.1 hx with rfl | hx1
      · exact List.mem_cons_self x rest
      · exact List.mem_cons_of_mem c (ih (s + 1) x hx1)

theorem countP_range_eq_length {dels : List Nat} {m : Nat} (hnd : dels.Nodup)
    (hbd : ∀ x ∈ dels, x < m) :
    (List.range' 0 m).countP (fun x => decide (x ∈ dels)) = dels.length := by
  have h0 : List.range' 0 m = List.range m := (List.range_eq_range' m).symm
  rw [h0, List.countP_eq_length_filter]
  have hperm : List.Perm ((List.range m).filter (fun x => decide (x ∈ dels))) dels := by
    rw [List.perm_ext_iff_of_nodup ((List.nodup_range m).filter _) hnd]
    intro a
    simp only [List.mem_filter, List.mem_range, decide_eq_true_eq]
    exact ⟨fun h => h.2, fun h => ⟨hbd a h, h⟩⟩
  exact hperm.length_eq

theorem merge_clipPos {a : Clipping} (b : Clipping) (h : ClipPos a) :
    ClipPos (a.merge b) := by
  cases a with
  | mk ta pa la da ca =>
    cases b with
    | mk tb pb lb db cb =>
      cases pa <;> cases pb <;> cases la <;> cases lb <;>
        simp_all [ClipPos, Clipping.merge, Clipping.getPositionIntLoc,
          Clipping.page, Clipping.location]

theorem lookahead_acc_pos (i : Nat) (rest : List Clipping) (j : Nat)
    (acc : Clipping) (accEnd : Int) (dels : List Nat) (h : ClipPos acc) :
    ClipPos (lookahead i rest j acc accEnd dels).1 := by
  induction rest generalizing j acc accEnd dels with
  | nil => exact h
  | cons next rest ih =>
    unfold lookahead
    split
    · exact h
    · split
      · exact ih (j + 1) _ _ _ (merge_clipPos next h)
      · exact ih (j + 1) _ _ _ h

theorem scanGo_app_pos (s : List Clipping) (i : Nat) (dels : List Nat)
    (app : List Clipping) (hs : ∀ c ∈ s, ClipPos c) (ha : ∀ c ∈ app, ClipPos c) :
    ∀ c ∈ (scanGo s i dels app).2, ClipPos c := by
  induction s generalizing i dels app with
  | nil =>
    simpa [scanGo] using ha
  | cons c rest ih =>
    have hs1 : ∀ x ∈ rest, ClipPos x := fun x hx => hs x (List.mem_cons_of_mem c hx)
    unfold scanGo
    split
    · exact ih (i + 1) dels app hs1 ha
    · refine ih (i + 1) _ _ hs1 ?_
      split
      · intro x hx
        rcases List.mem_append.1 hx with hx1 | hx1
        · exact ha x hx1
        · have hx2 : x = (lookahead i rest (i + 1) c (c.nposD).2 dels).1 := by
            simpa using hx1
          rw [hx2]
          exact lookahead_acc_pos i rest (i + 1) c (c.nposD).2 dels
            (hs c (List.mem_cons_self c rest))
      · exact ha

/-- One application of merge_clippings on a fully positioned document either
returns the document unchanged or strictly decreases the clipping count, and
preserves positionedness. -/
theorem merge_clippings_step (cs : List Clipping) (h : AllPos cs) :
    ∃ out, merge_clippings cs = some out ∧ AllPos out ∧
      (out = cs ∨ out.length < cs.length) := by
  have hguard : (cs.all fun c => (c.getPositionIntLoc).isSome) = true := h
  have hsnaplen : (List.insertionSort posLe cs).length = cs.length :=
    List.length_insertionSort posLe cs
  have hscan := scanGo_inv (List.insertionSort posLe cs) 0 [] []
    List.nodup_nil (by simp) (Or.inl ⟨rfl, rfl⟩)
  refine ⟨rebuild (cs ++ (scanGo (List.insertionSort posLe cs) 0 [] []).2) 0
    (scanGo (List.insertionSort posLe cs) 0 [] []).1, ?_, ?_, ?_⟩
  · unfold merge_clippings
    rw [if_pos hguard]
  · have hpos : ∀ c ∈ cs ++ (scanGo (List.insertionSort posLe cs) 0 [] []).2,
        ClipPos c := by
      intro c hc
      rcases List.mem_append.1 hc with hc1 | hc1
      · exact List.all_eq_true.1 hguard c hc1
      · refine scanGo_app_pos _ 0 [] [] ?_ (by simp) c hc1
        intro x hx
        have hx2 : x ∈ cs := (List.perm_insertionSort posLe cs).mem_iff.1 hx
        exact List.all_eq_true.1 hguard x hx2
    exact List.all_eq_true.2 fun c hc => hpos c (mem_rebuild _ _ _ c hc)
  · rcases hscan.2.2 with ⟨hd0, ha0⟩ | hlt
    · left
      rw [hd0, ha0]
      simpa using rebuild_nil_dels cs 0
    · right
      have hrl := rebuild_length (cs ++ (scanGo (List.insertionSort posLe cs) 0 [] []).2)
        0 (scanGo (List.insertionSort posLe cs) 0 [] []).1
      have hcnt : (List.range' 0 (cs ++ (scanGo (List.insertionSort posLe cs) 0 [] []).2).length).countP
          (fun x => decide (x ∈ (scanGo (List.insertionSort posLe cs) 0 [] []).1)) =
          (scanGo (List.insertionSort posLe cs) 0 [] []).1.length := by
        refine countP_range_eq_length hscan.1 ?_
        intro x hx
        have := hscan.2.1 x hx
        simp only [List.length_append]
        omega
      rw [hcnt] at hrl
      simp only [List.length_append] at hrl
      omega

theorem iterMerge_fixed {s : List Clipping} (h : merge_clippings s = some s) :
    ∀ k, iterMerge k s = some s := by
  intro k
  induction k with
  | zero => rfl
  | succ k ih => simp [iterMerge, h, ih]

theorem stabilize_aux (n : Nat) : ∀ cs : List Clipping, cs.length ≤ n → AllPos cs →
    ∃ N s', iterMerge N cs = some s' ∧ merge_clippings s' = some s' ∧
      ∀ k, N ≤ k → iterMerge k cs = some s' := by
  induction n with
  | zero =>
    intro cs hn h
    obtain ⟨out, hout, hpos, hcase⟩ := merge_clippings_step cs h
    rcases hcase with rfl | hlt
    · exact ⟨0, out, rfl, hout, fun k _ => iterMerge_fixed hout k⟩
    · omega
  | succ n ih =>
    intro cs hn h
    obtain ⟨out, hout, hpos, hcase⟩ := merge_clippings_step cs h
    rcases hcase with rfl | hlt
    · exact ⟨0, out, rfl, hout, fun k _ => iterMerge_fixed hout k⟩
    · obtain ⟨N, s', h1, h2, h3⟩ := ih out (by omega) hpos
      refine ⟨N + 1, s', ?_, h2, ?_⟩
      · simp [iterMerge, hout, h1]
      · intro k hk
        obtain ⟨k', rfl⟩ : ∃ k', k = k' + 1 := ⟨k - 1, by omega⟩
        simp [iterMerge, hout]
        exact h3 k' (by omega)

/-! ### Claim C8 -/

/-- Claim C8: on any document whose clippings all carry a position (the only
documents on which merge_clippings does not raise), repeated application of
merge_clippings stabilizes: after finitely many applications a state is
reached that every further application maps to itself, so the clipping
collection (and with it the derived type index typeIdxMap) stops changing. -/
theorem merge_clippings_stabilizes (cs : List Clipping) (h : AllPos cs) :
    ∃ N s', iterMerge N cs = some s' ∧ merge_clippings s' = some s' ∧
      ∀ k, N ≤ k → iterMerge k cs = some s' :=
  stabilize_aux cs.length cs le_rfl h

/-- Witness for claim C8 at a concrete one-clipping document. -/
theorem merge_clippings_stabilizes_witness :
    ∃ N s', iterMerge N [mcA] = some s' ∧ merge_clippings s' = some s' ∧
      ∀ k, N ≤ k → iterMerge k [mcA] = some s' :=
  merge_clippings_stabilizes [mcA] (by decide)

/-! ### Helper lemmas for the shrinking-window search (claims C9 and C10) -/

/-- When no window position at the current length has exactly one occurrence,
the sliding-window loop never breaks: it scans every remaining position, ends
with the matches variable holding the occurrences of the final window, and
its ambiguity flag is set whenever it passes a window with more than one
occurrence (and keeps an already-set flag). -/
theorem inner1Go_no_single (clip page : List Char) (ql : Nat) :
    ∀ (fuel s0 : Nat) (amb0 : Bool) (mv : Option (List Nat)),
    s0 + ql ≤ clip.length →
    clip.length + 1 - s0 ≤ fuel →
    (∀ s, s0 ≤ s → s + ql ≤ clip.length →
      (findIter ((clip.drop s).take ql) page).length ≠ 1) →
    ∃ ambF, inner1Go clip page ql fuel s0 amb0 mv =
        .exhausted ambF
          (some (findIter ((clip.drop (clip.length - ql)).take ql) page)) ∧
      (amb0 = true → ambF = true) ∧
      (∀ s, s0 ≤ s → s + ql ≤ clip.length →
        1 < (findIter ((clip.drop s).take ql) page).length → ambF = true) := by
  intro fuel
  induction fuel with
  | zero =>
    intro s0 amb0 mv hs0 hfuel hns
    omega
  | succ fuel ih =>
    intro s0 amb0 mv hs0 hfuel hns
    have hne1 : ¬ (findIter ((clip.drop s0).take ql) page).length = 1 :=
      hns s0 le_rfl hs0
    by_cases hnext : s0 + 1 + ql ≤ clip.length
    · have hstep := fun amb1 mv1 => ih (s0 + 1) amb1 mv1 hnext (by omega)
        (fun s hs hsl => hns s (by omega) hsl)
      by_cases hz : (findIter ((clip.drop s0).take ql) page).length = 0
      · obtain ⟨ambF, heq, hmono, hamb⟩ :=
          hstep amb0 (some (findIter ((clip.drop s0).take ql) page))
        refine ⟨ambF, ?_, hmono, ?_⟩
        · unfold inner1Go
          rw [if_pos hs0, if_neg hne1, if_pos hz]
          exact heq
        · intro s hs hsl hgt
          rcases Nat.eq_or_lt_of_le hs with rfl | hlt
          · omega
          · exact hamb s hlt hsl hgt
      · obtain ⟨ambF, heq, hmono, hamb⟩ :=
          hstep true (some (findIter ((clip.drop s0).take ql) page))
        refine ⟨ambF, ?_, fun _ => hmono rfl, fun s hs hsl hgt => hmono rfl⟩
        unfold inner1Go
        rw [if_pos hs0, if_neg hne1, if_neg hz]
        exact heq
    · have hlast : s0 = clip.length - ql := by omega
      by_cases hz : (findIter ((clip.drop s0).take ql) page).length = 0
      · refine ⟨amb0, ?_, fun h => h, ?_⟩
        · unfold inner1Go
          rw [if_pos hs0, if_neg hne1, if_pos hz]
          rw [hlast] at hz ⊢
          cases fuel with
          | zero => rfl
          | succ fuel2 =>
            unfold inner1Go
            rw [if_neg (by omega)]
        · intro s hs hsl hgt
          have : s = s0 := by omega
          subst this
          omega
      · refine ⟨true, ?_, fun _ => rfl, fun _ _ _ _ => rfl⟩
        unfold inner1Go
        rw [if_pos hs0, if_neg hne1, if_neg hz]
        rw [hlast]
        cases fuel with
        | zero => rfl
        | succ fuel2 =>
          unfold inner1Go
          rw [if_neg (by omega)]

/-- Once the matches variable has been assigned, the sliding-window loop can
only end in a found break or with the variable still assigned. -/
theorem inner1Go_some_mv (clip page : List Char) (ql : Nat) :
    ∀ (fuel s : Nat) (amb : Bool) (m : List Nat),
    (∃ s0 m0, inner1Go clip page ql fuel s amb (some m) = .found s0 m0) ∨
    (∃ a mm, inner1Go clip page ql fuel s amb (some m) = .exhausted a (some mm)) := by
  intro fuel
  induction fuel with
  | zero =>
    intro s amb m
    exact Or.inr ⟨amb, m, rfl⟩
  | succ fuel ih =>
    intro s amb m
    unfold inner1Go
    by_cases hin : s + ql ≤ clip.length
    · rw [if_pos hin]
      by_cases h1 : (findIter ((clip.drop s).take ql) page).length = 1
      · rw [if_pos h1]
        exact Or.inl ⟨s, _, rfl⟩
      · rw [if_neg h1]
        by_cases hz : (findIter ((clip.drop s).take ql) page).length = 0
        · rw [if_pos hz]
          exact ih (s + 1) amb _
        · rw [if_neg hz]
          exact ih (s + 1) true _
    · rw [if_neg hin]
      exact Or.inr ⟨amb, m, rfl⟩

/-- A full run of the sliding-window loop at a length not exceeding the
clipping length examines at least the first window, so it either breaks at a
single match or leaves the matches variable assigned. -/
theorem inner1_result (clip page : List Char) (ql : Nat)
    (mv : Option (List Nat)) (hle : ql ≤ clip.length) :
    (∃ s0 m0, inner1 clip page ql mv = .found s0 m0) ∨
    (∃ a mm, inner1 clip page ql mv = .exhausted a (some mm)) := by
  unfold inner1 inner1Go
  rw [if_pos (by omega)]
  by_cases h1 : (findIter ((clip.drop 0).take ql) page).length = 1
  · rw [if_pos h1]
    exact Or.inl ⟨0, _, rfl⟩
  · rw [if_neg h1]
    by_cases hz : (findIter ((clip.drop 0).take ql) page).length = 0
    · rw [if_pos hz]
      exact inner1Go_some_mv clip page ql clip.length 1 false _
    · rw [if_neg hz]
      exact inner1Go_some_mv clip page ql clip.length 1 true _

/-- With a zero minimum length and an assigned matches variable or a positive
window length within the clipping, the first phase never raises the
NameError: every exit path reads an assigned matches variable. -/
theorem phase1Go_no_nameError (clip page raw : List Char) (rawMap : List Nat) :
    ∀ (ql : Nat) (mv : Option (List Nat)) (pq : List Char),
    ql ≤ clip.length → (mv ≠ none ∨ 1 ≤ ql) →
    phase1Go clip page raw rawMap 0 ql mv pq ≠ Except.error PErr.nameError := by
  intro ql
  induction ql with
  | zero =>
    intro mv pq hle hmv
    rcases mv with _ | m
    · rcases hmv with h | h
      · exact absurd rfl h
      · omega
    · unfold phase1Go phase1Term
      dsimp only
      split <;> intro h <;> exact Except.noConfusion h
  | succ ql ih =>
    intro mv pq hle hmv
    unfold phase1Go
    rw [if_neg (by omega)]
    rcases inner1_result clip page (ql + 1) mv hle with ⟨s0, m0, heq⟩ | ⟨a, mm, heq⟩
    · rw [heq]
      dsimp only
      split
      · intro h
        exact Except.noConfusion h
      · intro h
        exact PErr.noConfusion (Except.error.inj h)
    · rw [heq]
      dsimp only
      by_cases h1 : mm.length = 1
      · rw [if_pos h1]
        intro h
        exact Except.noConfusion h
      · rw [if_neg h1]
        by_cases ha : a
        · rw [if_pos ha]
          intro h
          exact Except.noConfusion h
        · rw [if_neg ha]
          exact ih (some mm) pq (by omega) (Or.inl (by simp))

/-! ### Claim C9 -/

/-- Claim C9: whenever the shrinking-window search reaches a window length
(above the minimum and within the clipping) at which no window position has
exactly one occurrence in the page text while some window position has more
than one, the first phase returns the empty result (ok none, i.e. the empty
span list of the source) at that very length: the branch taken contains no
recursive call, so no shorter window length is ever tried, whatever the page
text would yield there. -/
theorem phase1_ambiguous_fail_fast (clip page raw : List Char)
    (rawMap : List Nat) (minLen ql : Nat) (mv : Option (List Nat))
    (pq : List Char) (hql : minLen < ql) (hle : ql ≤ clip.length)
    (hns : ∀ s, s ≤ clip.length - ql →
      (findIter ((clip.drop s).take ql) page).length ≠ 1)
    (hamb : ∃ s, s ≤ clip.length - ql ∧
      1 < (findIter ((clip.drop s).take ql) page).length) :
    phase1Go clip page raw rawMap minLen ql mv pq = Except.ok none := by
  obtain ⟨k, rfl⟩ : ∃ k, ql = k + 1 := ⟨ql - 1, by omega⟩
  have hns2 : ∀ s, 0 ≤ s → s + (k + 1) ≤ clip.length →
      (findIter ((clip.drop s).take (k + 1)) page).length ≠ 1 := by
    intro s _ hsl
    exact hns s (by omega)
  obtain ⟨ambF, heq, _, hambF⟩ := inner1Go_no_single clip page (k + 1)
    (clip.length + 1) 0 false mv (by omega) (by omega) hns2
  obtain ⟨sw, hsw, hgt⟩ := hamb
  have hA : ambF = true := hambF sw (by omega) (by omega) hgt
  have hlast : (findIter ((clip.drop (clip.length - (k + 1))).take (k + 1))
      page).length ≠ 1 := hns _ le_rfl
  unfold phase1Go
  rw [if_neg (by omega)]
  unfold inner1
  rw [heq]
  dsimp only
  rw [if_neg hlast, hA, if_pos rfl]

/-- Witness for claim C9 on spec example 5: the clipping text at in the page
text a cat sat on a mat is ambiguous at full window length 2 (occurrences at
offsets 3, 7 and 16), no window of length 2 is unique, and the first phase
returns the empty result at once. -/
theorem phase1_ambiguous_fail_fast_witness :
    phase1Go "at".data "a cat sat on a mat".data "raw".data [] 0 2 none
      "at".data = Except.ok none :=
  phase1_ambiguous_fail_fast "at".data "a cat sat on a mat".data "raw".data []
    0 2 none "at".data (by decide) (by decide)
    (by decide) ⟨0, by decide, by decide⟩

/-! ### Claim C10 -/

/-- Claim C10 is false as stated: for the clipping text ab (hyphen-stripped,
non-empty) on a page whose raw text is ab, the full-length window matches
uniquely at offset 0, and the translation of the span end through raw_idx_map
subscripts index 2 of a two-element map - an IndexError - so _search_page
raises instead of returning a list.  Non-emptiness of the stripped content
rules out the NameError of the terminal zero-match test, but not this
IndexError, so it is not sufficient for totality. -/
theorem searchPage_index_error_counterexample :
    searchPage (fun _ => ([] : List Unit)) "ab" "ab" 0 =
      Except.error PErr.indexError ∧
    "ab".data.filter (fun c => c ≠ '-') ≠ [] := by
  exact ⟨by rfl, by decide⟩

/-- Claim C10 (amended): when the hyphen-stripped clipping content is empty,
the shrinking-window loops of _search_page never run and the terminal
zero-match test reads the never-assigned matches variable (NameError); when
it is non-empty, the matches variable is assigned before every read, so the
NameError cannot occur - though the function may still raise an IndexError
while translating a matched span to raw offsets, so non-emptiness alone does
not guarantee that a list is returned. -/
theorem searchPage_name_error_amended {R : Type} (searchFor : List Char → List R)
    (rawText clipContent : String) :
    (clipContent.data.filter (fun c => c ≠ '-') = [] →
      searchPage searchFor rawText clipContent 0 =
        Except.error PErr.nameError) ∧
    (clipContent.data.filter (fun c => c ≠ '-') ≠ [] →
      searchPage searchFor rawText clipContent 0 ≠
        Except.error PErr.nameError) := by
  constructor
  · intro h
    unfold searchPage
    rw [h]
    rfl
  · intro h
    have hlen : 1 ≤ (clipContent.data.filter (fun c => c ≠ '-')).length := by
      rcases hx : clipContent.data.filter (fun c => c ≠ '-') with _ | ⟨c, rest⟩
      · exact absurd hx h
      · simp
    have hres := phase1Go_no_nameError (clipContent.data.filter (fun c => c ≠ '-'))
      (getPageText rawText.data).1 rawText.data (getPageText rawText.data).2
      (clipContent.data.filter (fun c => c ≠ '-')).length none
      (clipContent.data.filter (fun c => c ≠ '-')) le_rfl (Or.inr hlen)
    unfold searchPage
    rcases hp : phase1Go (clipContent.data.filter (fun c => c ≠ '-'))
        (getPageText rawText.data).1 rawText.data (getPageText rawText.data).2 0
        (clipContent.data.filter (fun c => c ≠ '-')).length none
        (clipContent.data.filter (fun c => c ≠ '-')) with e | o
    · rw [hp] at hres
      dsimp only
      have hne : e ≠ PErr.nameError := fun he => hres (by rw [he])
      intro hcontra
      exact hne (Except.error.inj hcontra)
    · rcases o with _ | pq
      · dsimp only
        intro hcontra
        exact Except.noConfusion hcontra
      · dsimp only
        intro hcontra
        exact Except.noConfusion hcontra

/-- Witness for the amended claim C10: the non-empty stripped clipping text
ab never produces the NameError (on this input the source raises the
IndexError instead, as the counterexample shows). -/
theorem searchPage_name_error_amended_witness :
    searchPage (fun _ => ([] : List Unit)) "ab" "ab" 0 ≠
      Except.error PErr.nameError :=
  (searchPage_name_error_amended (fun _ => ([] : List Unit)) "ab" "ab").2
    (by decide)
